import Mathlib

/-!
Verification of the vangogh-ai-agent repository (src/platforms/x/index.ts and
src/platforms/x/auth.ts) against its natural-language specification.

The embedding below translates the mention-reconciliation loop (`runBot`,
`getMentions`, `handleMention`, `saveLastMentionId`, `cleanTweetText`,
`fetchGitHubCommits`, `tweetGitHubCommits`) and the OAuth callback handler
(`app.get('/callback')`) into pure Lean functions.  External services (the
platform mention timeline, the completion API, the post endpoint, the GitHub
activity feed, the OAuth token exchange) are modelled as explicit inputs: each
theorem quantifies over their possible responses.
-/

namespace VanGogh

/-- The error taxonomy of `index.ts` (`type AppError`); the attached JS `Error`
payload is opaque and is dropped in the embedding, keeping only the tag. -/
inductive AppErrorType
  | initializationError
  | twitterAPIError
  | openAIError
  | fileSystemError
deriving DecidableEq, Repr

/-- A mention tweet (`type Tweet` in `index.ts`).  The platform's sort-order id
(a numeric-string in the source) is embedded as the number it denotes, since
`since_id` filtering and "maximum id" are about its numeric order.  The string
form of ids is treated separately for the cursor file (see
`saveLastMentionId` / `loadLastMentionId`). -/
structure Mention where
  id : Nat
  text : String
  created_at : String
deriving DecidableEq, Repr

/-- Constant `GITHUB_USERNAME` from `index.ts`. -/
def GITHUB_USERNAME : String := "vangogh-ai"

/-- `getMentions(bot)(sinceId)`: queries the mention timeline with
`since_id := sinceId`; a thrown error from the API client is mapped to
`TwitterAPIError`.  The external API is the argument `api`: `none` models a
throw, `some ms` a successful response body. -/
def getMentions (api : Option Nat → Option (List Mention))
    (sinceId : Option Nat) : Except AppErrorType (List Mention) :=
  match api sinceId with
  | some mentions => .ok mentions
  | none => .error .twitterAPIError

/-- `handleMention(bot)(tweet, profiles)`: the single `try` block runs the
completion call and then the post-reply call; the single `catch` labels ANY
failure `OpenAIError` — including a failure of the Twitter post call.
`completionResult` is the completion API's outcome (`none` = throw) and
`postResult` the post call's outcome. -/
def handleMention (completionResult : Option String) (postResult : Option Unit) :
    Except AppErrorType Unit :=
  match completionResult with
  | none => .error .openAIError
  | some _ =>
    match postResult with
    | none => .error .openAIError
    | some _ => .ok ()

/-- Result of the per-batch mention loop inside `runBot`: the in-memory cursor
after the loop, the successive `saveLastMentionId` payloads (in write order),
and the mentions passed to `handleMention` (in processing order). -/
structure ProcessResult where
  cursor : Option Nat
  writes : List Nat
  handled : List Mention
deriving DecidableEq, Repr

/-- The `for (const mention of mentions)` body of `runBot`: each mention is
handed to `handleMention`; only on success (`E.isRight`) is the id persisted
(`saveLastMentionId`) and the in-memory cursor updated.  `handleOk m` models
"`handleMention(bot)(m, profiles)` returned `Right`", i.e. both the completion
call and the post call succeeded for `m`. -/
def processMentions (handleOk : Mention → Bool) (cursor : Option Nat) :
    List Mention → ProcessResult
  | [] => ⟨cursor, [], []⟩
  | m :: ms =>
    if handleOk m then
      let r := processMentions handleOk (some m.id) ms
      ⟨r.cursor, m.id :: r.writes, m :: r.handled⟩
    else
      let r := processMentions handleOk cursor ms
      ⟨r.cursor, r.writes, m :: r.handled⟩

/-- The loop's cursor state: `lastMentionId` is the in-memory
`bot.lastMentionId`; `cursorFile` is the content of `last_mention_id.txt`
(`none` = absent), each `saveLastMentionId` overwriting it. -/
structure BotState where
  lastMentionId : Option Nat
  cursorFile : Option Nat
deriving DecidableEq, Repr

/-- Everything one iteration of `runBot` did to the cursor: the state after the
iteration, the `since_id` passed to the mention fetch, the persisted writes and
the processed mentions. -/
structure IterationResult where
  state : BotState
  fetchSinceId : Option Nat
  writes : List Nat
  handled : List Mention
deriving DecidableEq, Repr

/-- One iteration of the `while (true)` body of `runBot`, restricted to the
mention-reconciliation part: fetch mentions with `since_id = bot.lastMentionId`
(`fetched` is the external API response, `none` = throw, mapped by
`getMentions` to `TwitterAPIError`); on fetch failure nothing is processed; on
success every mention goes through the `processMentions` loop and each write
overwrites the cursor file. -/
def runBotIteration (handleOk : Mention → Bool) (st : BotState)
    (fetched : Option (List Mention)) : IterationResult :=
  match getMentions (fun _ => fetched) st.lastMentionId with
  | .error _ => ⟨st, st.lastMentionId, [], []⟩
  | .ok mentions =>
    let r := processMentions handleOk st.lastMentionId mentions
    let newFile := match r.writes.getLast? with
      | none => st.cursorFile
      | some w => some w
    ⟨⟨r.cursor, newFile⟩, st.lastMentionId, r.writes, r.handled⟩

/- ## Basic lemmas about the per-batch loop -/

theorem processMentions_handled (handleOk : Mention → Bool) :
    ∀ (ms : List Mention) (c : Option Nat),
      (processMentions handleOk c ms).handled = ms := by
  intro ms
  induction ms with
  | nil => intro c; rfl
  | cons m ms ih =>
    intro c
    by_cases h : handleOk m = true
    · simp [processMentions, h, ih]
    · simp [processMentions, h, ih]

theorem processMentions_writes (handleOk : Mention → Bool) :
    ∀ (ms : List Mention) (c : Option Nat),
      (processMentions handleOk c ms).writes = (ms.filter handleOk).map Mention.id := by
  intro ms
  induction ms with
  | nil => intro c; rfl
  | cons m ms ih =>
    intro c
    by_cases h : handleOk m = true
    · simp [processMentions, h, ih, List.filter_cons]
    · simp [processMentions, h, ih, List.filter_cons]

/-- The in-memory cursor after the batch is the last persisted write, or the
starting cursor when nothing was written. -/
theorem processMentions_cursor (handleOk : Mention → Bool) :
    ∀ (ms : List Mention) (c : Option Nat),
      (processMentions handleOk c ms).cursor =
        match (processMentions handleOk c ms).writes.getLast? with
        | none => c
        | some w => some w := by
  intro ms
  induction ms with
  | nil => intro c; rfl
  | cons m ms ih =>
    intro c
    by_cases h : handleOk m = true
    · simp only [processMentions, h, if_true]
      rw [ih (some m.id)]
      cases hw : (processMentions handleOk (some m.id) ms).writes with
      | nil => simp [hw]
      | cons w ws =>
        rcases hgl : (w :: ws).getLast? with _ | x
        · rw [List.getLast?_eq_none_iff] at hgl
          exact absurd hgl (by simp)
        · simp [hgl]
    · simp only [processMentions, h, if_false]
      exact ih c

/-- In a strictly increasing list of ids the last element bounds every
element. -/
theorem pairwise_lt_le_getLast {l : List Nat} {w : Nat}
    (hp : l.Pairwise (· < ·)) (hw : l.getLast? = some w) :
    ∀ x ∈ l, x ≤ w := by
  obtain ⟨ys, rfl⟩ := List.getLast?_eq_some_iff.1 hw
  rw [List.pairwise_append] at hp
  intro x hx
  rcases List.mem_append.1 hx with h | h
  · exact le_of_lt (hp.2.2 x h w (by simp))
  · simp only [List.mem_singleton] at h
    omega

/-- C1: starting from cursor `C` (in memory and in the cursor file), one
iteration of the reconciliation loop ends with both the persisted and the
in-memory cursor equal to the maximum id among the fetched mentions whose
handling (reply generation and posting) succeeded, and leaves both equal to
`C` when no mention succeeded or the mention fetch failed.  The fetched batch
is in strictly ascending id order, as the fetch contract guarantees. -/
theorem runBot_iteration_cursor_max (handleOk : Mention → Bool) (C : Option Nat)
    (fetched : Option (List Mention))
    (hsorted : ∀ M, fetched = some M → M.Pairwise (fun a b => a.id < b.id)) :
    (fetched = none →
      runBotIteration handleOk ⟨C, C⟩ fetched = ⟨⟨C, C⟩, C, [], []⟩) ∧
    (∀ M, fetched = some M →
      ((M.filter handleOk).map Mention.id = [] →
        (runBotIteration handleOk ⟨C, C⟩ fetched).state = ⟨C, C⟩) ∧
      ((M.filter handleOk).map Mention.id ≠ [] → ∃ w,
        (runBotIteration handleOk ⟨C, C⟩ fetched).state.lastMentionId = some w ∧
        (runBotIteration handleOk ⟨C, C⟩ fetched).state.cursorFile = some w ∧
        w ∈ (M.filter handleOk).map Mention.id ∧
        ∀ x ∈ (M.filter handleOk).map Mention.id, x ≤ w)) := by
  constructor
  · intro h
    subst h
    rfl
  · intro M hM
    subst hM
    have hwr := processMentions_writes handleOk M C
    have hcu := processMentions_cursor handleOk M C
    constructor
    · intro hnil
      have hgl : (processMentions handleOk C M).writes.getLast? = none := by
        rw [hwr, hnil]
        rfl
      simp only [runBotIteration, getMentions]
      rw [hgl] at hcu
      simp [hgl, hcu]
    · intro hne
      have hglsome : ∃ w,
          ((M.filter handleOk).map Mention.id).getLast? = some w := by
        rcases hd : ((M.filter handleOk).map Mention.id).getLast? with _ | w
        · rw [List.getLast?_eq_none_iff] at hd
          exact absurd hd hne
        · exact ⟨w, rfl⟩
      obtain ⟨w, hwl⟩ := hglsome
      have hpw : ((M.filter handleOk).map Mention.id).Pairwise (· < ·) := by
        rw [List.pairwise_map]
        exact (hsorted M rfl).filter handleOk
      refine ⟨w, ?_, ?_, List.mem_of_getLast?_eq_some hwl,
        pairwise_lt_le_getLast hpw hwl⟩
      · simp only [runBotIteration, getMentions]
        rw [hcu, hwr, hwl]
      · simp only [runBotIteration, getMentions]
        rw [hwr, hwl]

/-- Witness for C1 at a concrete input: cursor `some 1`, fetched batch with
ids 3 and 5, every mention handled successfully. -/
theorem runBot_iteration_cursor_max_witness :
    (∀ M, (some [⟨3, "a", "t"⟩, ⟨5, "b", "t"⟩] : Option (List Mention)) = some M →
      M.Pairwise (fun a b => a.id < b.id)) ∧
    ((([⟨3, "a", "t"⟩, ⟨5, "b", "t"⟩] : List Mention).filter
        (fun _ => true)).map Mention.id ≠ [] → ∃ w,
      (runBotIteration (fun _ => true) ⟨some 1, some 1⟩
        (some [⟨3, "a", "t"⟩, ⟨5, "b", "t"⟩])).state.lastMentionId = some w ∧
      (runBotIteration (fun _ => true) ⟨some 1, some 1⟩
        (some [⟨3, "a", "t"⟩, ⟨5, "b", "t"⟩])).state.cursorFile = some w ∧
      w ∈ (([⟨3, "a", "t"⟩, ⟨5, "b", "t"⟩] : List Mention).filter
        (fun _ => true)).map Mention.id ∧
      ∀ x ∈ (([⟨3, "a", "t"⟩, ⟨5, "b", "t"⟩] : List Mention).filter
        (fun _ => true)).map Mention.id, x ≤ w) := by
  have hs : ∀ M, (some [⟨3, "a", "t"⟩, ⟨5, "b", "t"⟩] : Option (List Mention)) = some M →
      M.Pairwise (fun a b => a.id < b.id) := by
    intro M h
    injection h with h2
    subst h2
    decide
  exact ⟨hs, ((runBot_iteration_cursor_max (fun _ => true) (some 1)
    (some [⟨3, "a", "t"⟩, ⟨5, "b", "t"⟩]) hs).2
    [⟨3, "a", "t"⟩, ⟨5, "b", "t"⟩] rfl).2⟩

/-- C4: within one iteration the fetched batch is processed exactly in batch
order, so with the batch in strictly ascending id order (the fetch contract)
every mention with a smaller id is handled before every mention with a larger
id: the processing trace equals the batch, and position in the trace is
strictly monotone in the id. -/
theorem runBot_iteration_ascending_order (handleOk : Mention → Bool)
    (st : BotState) (M : List Mention)
    (hsorted : M.Pairwise (fun a b => a.id < b.id)) :
    (runBotIteration handleOk st (some M)).handled = M ∧
    ∀ (i j : Fin (runBotIteration handleOk st (some M)).handled.length),
      ((runBotIteration handleOk st (some M)).handled.get i).id <
        ((runBotIteration handleOk st (some M)).handled.get j).id → i < j := by
  have hh : (runBotIteration handleOk st (some M)).handled = M := by
    simp only [runBotIteration, getMentions]
    exact processMentions_handled handleOk M st.lastMentionId
  refine ⟨hh, ?_⟩
  intro i j hlt
  have hp : (runBotIteration handleOk st (some M)).handled.Pairwise
      (fun a b => a.id < b.id) := by rw [hh]; exact hsorted
  by_contra hij
  push_neg at hij
  rcases lt_or_eq_of_le hij with h | h
  · have := List.pairwise_iff_get.1 hp j i h
    omega
  · rw [h] at hlt
    exact absurd hlt (lt_irrefl _)

/-- Witness for C4 at a concrete input: a two-mention batch with ids 1 < 2,
both handled. -/
theorem runBot_iteration_ascending_order_witness :
    ([⟨1, "a", "t"⟩, ⟨2, "b", "t"⟩] : List Mention).Pairwise
      (fun a b => a.id < b.id) ∧
    ((runBotIteration (fun _ => true) ⟨none, none⟩
        (some [⟨1, "a", "t"⟩, ⟨2, "b", "t"⟩])).handled =
      [⟨1, "a", "t"⟩, ⟨2, "b", "t"⟩] ∧
    ∀ (i j : Fin (runBotIteration (fun _ => true) ⟨none, none⟩
        (some [⟨1, "a", "t"⟩, ⟨2, "b", "t"⟩])).handled.length),
      ((runBotIteration (fun _ => true) ⟨none, none⟩
        (some [⟨1, "a", "t"⟩, ⟨2, "b", "t"⟩])).handled.get i).id <
        ((runBotIteration (fun _ => true) ⟨none, none⟩
          (some [⟨1, "a", "t"⟩, ⟨2, "b", "t"⟩])).handled.get j).id → i < j) :=
  ⟨by decide, runBot_iteration_ascending_order (fun _ => true) ⟨none, none⟩
    [⟨1, "a", "t"⟩, ⟨2, "b", "t"⟩] (by decide)⟩

/-- C6: a failing mention `X` never blocks the rest of its batch: every
mention of the batch (in particular every mention after `X`) still reaches
`handleMention`, `X` contributes no cursor write (the persisted writes are
exactly those of the succeeding mentions), and the step for `X` leaves the
running cursor and the write list exactly as they were before `X`. -/
theorem runBot_iteration_failure_isolation (handleOk : Mention → Bool)
    (C : Option Nat) (pre post : List Mention) (X : Mention)
    (hfail : handleOk X = false) :
    (runBotIteration handleOk ⟨C, C⟩ (some (pre ++ X :: post))).handled =
      pre ++ X :: post ∧
    (runBotIteration handleOk ⟨C, C⟩ (some (pre ++ X :: post))).writes =
      ((pre ++ post).filter handleOk).map Mention.id ∧
    ∀ c, processMentions handleOk c (X :: post) =
      ⟨(processMentions handleOk c post).cursor,
        (processMentions handleOk c post).writes,
        X :: (processMentions handleOk c post).handled⟩ := by
  refine ⟨?_, ?_, ?_⟩
  · simp only [runBotIteration, getMentions]
    exact processMentions_handled handleOk (pre ++ X :: post) C
  · simp only [runBotIteration, getMentions]
    rw [processMentions_writes]
    simp [List.filter_append, List.filter_cons, hfail]
  · intro c
    simp [processMentions, hfail]

/-- Witness for C6 at a concrete input: batch ids 1, 2, 3 where the middle
mention (id 2) fails. -/
theorem runBot_iteration_failure_isolation_witness :
    (fun (m : Mention) => !(m.id == 2)) (⟨2, "b", "t"⟩ : Mention) = false ∧
    ((runBotIteration (fun m => !(m.id == 2)) ⟨none, none⟩
        (some ([⟨1, "a", "t"⟩] ++ ⟨2, "b", "t"⟩ :: [⟨3, "c", "t"⟩]))).handled =
      [⟨1, "a", "t"⟩] ++ ⟨2, "b", "t"⟩ :: [⟨3, "c", "t"⟩] ∧
    (runBotIteration (fun m => !(m.id == 2)) ⟨none, none⟩
        (some ([⟨1, "a", "t"⟩] ++ ⟨2, "b", "t"⟩ :: [⟨3, "c", "t"⟩]))).writes =
      (([⟨1, "a", "t"⟩] ++ [⟨3, "c", "t"⟩] : List Mention).filter
        (fun m => !(m.id == 2))).map Mention.id ∧
    ∀ c, processMentions (fun m => !(m.id == 2)) c
        (⟨2, "b", "t"⟩ :: [⟨3, "c", "t"⟩]) =
      ⟨(processMentions (fun m => !(m.id == 2)) c [⟨3, "c", "t"⟩]).cursor,
        (processMentions (fun m => !(m.id == 2)) c [⟨3, "c", "t"⟩]).writes,
        ⟨2, "b", "t"⟩ ::
          (processMentions (fun m => !(m.id == 2)) c [⟨3, "c", "t"⟩]).handled⟩) :=
  ⟨by decide, runBot_iteration_failure_isolation (fun m => !(m.id == 2)) none
    [⟨1, "a", "t"⟩] [⟨3, "c", "t"⟩] ⟨2, "b", "t"⟩ (by decide)⟩

/-- One polling step's external world: the mention-timeline response as a
function of the requested `since_id` (`none` models a thrown request) and the
per-mention handling outcome during that iteration. -/
structure StepWorld where
  api : Option Nat → Option (List Mention)
  handleOk : Mention → Bool

/-- The `while (true)` loop of `runBot` unrolled over a finite list of polling
steps: each step fetches with `since_id = bot.lastMentionId` and runs one
iteration.  Returns the final state, the concatenated sequence of
`saveLastMentionId` payloads (in write order), and the `since_id` sent with
each mention fetch (in fetch order). -/
def runTrace : List StepWorld → BotState → BotState × List Nat × List (Option Nat)
  | [], st => (st, [], [])
  | w :: rest, st =>
    let r := runBotIteration w.handleOk st (w.api st.lastMentionId)
    let t := runTrace rest r.state
    (t.1, r.writes ++ t.2.1, r.fetchSinceId :: t.2.2)

/-- The in-memory cursor in force at the start of each iteration of the
trace. -/
def cursorsBefore : List StepWorld → BotState → List (Option Nat)
  | [], _ => []
  | w :: rest, st =>
    st.lastMentionId ::
      cursorsBefore rest (runBotIteration w.handleOk st (w.api st.lastMentionId)).state

/-- The platform's fetch contract, as the specification states it: a
successful mention-timeline response is in strictly ascending id order and
contains only mentions with id strictly greater than the requested
`since_id`. -/
def FetchContract (w : StepWorld) : Prop :=
  ∀ c M, w.api c = some M →
    M.Pairwise (fun a b => a.id < b.id) ∧
    ∀ m ∈ M, ∀ x, c = some x → x < m.id

theorem runBotIteration_fetchSinceId (handleOk : Mention → Bool)
    (st : BotState) (fetched : Option (List Mention)) :
    (runBotIteration handleOk st fetched).fetchSinceId = st.lastMentionId := by
  cases fetched with
  | none => rfl
  | some M => rfl

/-- What one iteration does to the write sequence under the fetch contract:
the writes are strictly increasing, all strictly above the starting cursor,
and the ending cursor is the last write (or the starting cursor if there was
none). -/
theorem runBotIteration_writes_facts (handleOk : Mention → Bool)
    (st : BotState) (fetched : Option (List Mention))
    (hM : ∀ M, fetched = some M →
      M.Pairwise (fun a b => a.id < b.id) ∧
      ∀ m ∈ M, ∀ x, st.lastMentionId = some x → x < m.id) :
    (runBotIteration handleOk st fetched).writes.Pairwise (· < ·) ∧
    (∀ v ∈ (runBotIteration handleOk st fetched).writes,
      ∀ x, st.lastMentionId = some x → x < v) ∧
    (runBotIteration handleOk st fetched).state.lastMentionId =
      (match (runBotIteration handleOk st fetched).writes.getLast? with
        | none => st.lastMentionId
        | some w => some w) := by
  cases fetched with
  | none =>
    exact ⟨List.Pairwise.nil, fun v hv => absurd hv (List.not_mem_nil v), rfl⟩
  | some M =>
    obtain ⟨hsort, hbound⟩ := hM M rfl
    have hwr : (runBotIteration handleOk st (some M)).writes =
        (M.filter handleOk).map Mention.id := by
      simp only [runBotIteration, getMentions]
      exact processMentions_writes handleOk M st.lastMentionId
    refine ⟨?_, ?_, ?_⟩
    · rw [hwr, List.pairwise_map]
      exact hsort.filter handleOk
    · intro v hv x hx
      rw [hwr] at hv
      obtain ⟨m, hm, rfl⟩ := List.mem_map.1 hv
      exact hbound m (List.mem_of_mem_filter hm) x hx
    · simp only [runBotIteration, getMentions]
      exact processMentions_cursor handleOk M st.lastMentionId

/-- Invariant behind C5: under the fetch contract the full write sequence of a
trace is strictly increasing and strictly above the initial cursor. -/
theorem runTrace_writes_invariant :
    ∀ (steps : List StepWorld) (st : BotState),
      (∀ w ∈ steps, FetchContract w) →
      (runTrace steps st).2.1.Pairwise (· < ·) ∧
      ∀ v ∈ (runTrace steps st).2.1, ∀ x, st.lastMentionId = some x → x < v := by
  intro steps
  induction steps with
  | nil =>
    intro st _
    exact ⟨List.Pairwise.nil, fun v hv => absurd hv (List.not_mem_nil v)⟩
  | cons w rest ih =>
    intro st hc
    have hcw : FetchContract w := hc w (List.mem_cons_self w rest)
    have hcrest : ∀ u ∈ rest, FetchContract u :=
      fun u hu => hc u (List.mem_cons_of_mem w hu)
    obtain ⟨hiterPw, hiterLb, hcur⟩ :=
      runBotIteration_writes_facts w.handleOk st (w.api st.lastMentionId)
        (fun M hM => hcw st.lastMentionId M hM)
    obtain ⟨hrestPw, hrestLb⟩ :=
      ih (runBotIteration w.handleOk st (w.api st.lastMentionId)).state hcrest
    have hsplit : (runTrace (w :: rest) st).2.1 =
        (runBotIteration w.handleOk st (w.api st.lastMentionId)).writes ++
        (runTrace rest
          (runBotIteration w.handleOk st (w.api st.lastMentionId)).state).2.1 := rfl
    constructor
    · rw [hsplit, List.pairwise_append]
      refine ⟨hiterPw, hrestPw, ?_⟩
      intro a ha b hb
      rcases hgl : (runBotIteration w.handleOk st (w.api st.lastMentionId)).writes.getLast?
        with _ | lw
      · rw [List.getLast?_eq_none_iff] at hgl
        rw [hgl] at ha
        exact absurd ha (List.not_mem_nil a)
      · have halw : a ≤ lw := pairwise_lt_le_getLast hiterPw hgl a ha
        have hcur' : (runBotIteration w.handleOk st
            (w.api st.lastMentionId)).state.lastMentionId = some lw := by
          rw [hcur, hgl]
        have := hrestLb b hb lw hcur'
        omega
    · intro v hv x hx
      rw [hsplit] at hv
      rcases List.mem_append.1 hv with h | h
      · exact hiterLb v h x hx
      · rcases hgl : (runBotIteration w.handleOk st
            (w.api st.lastMentionId)).writes.getLast? with _ | lw
        · have hcur' : (runBotIteration w.handleOk st
              (w.api st.lastMentionId)).state.lastMentionId = st.lastMentionId := by
            rw [hcur, hgl]
          exact hrestLb v h x (by rw [hcur', hx])
        · have hcur' : (runBotIteration w.handleOk st
              (w.api st.lastMentionId)).state.lastMentionId = some lw := by
            rw [hcur, hgl]
          have h1 := hrestLb v h lw hcur'
          have h2 := hiterLb lw
            (List.mem_of_getLast?_eq_some hgl) x hx
          omega

theorem runTrace_requests :
    ∀ (steps : List StepWorld) (st : BotState),
      (runTrace steps st).2.2 = cursorsBefore steps st := by
  intro steps
  induction steps with
  | nil => intro st; rfl
  | cons w rest ih =>
    intro st
    show (runBotIteration w.handleOk st (w.api st.lastMentionId)).fetchSinceId ::
        (runTrace rest _).2.2 = _
    rw [runBotIteration_fetchSinceId, ih]
    rfl

/-- C5: across a whole execution of the loop, under the platform's fetch
contract, the sequence of values written to the persisted cursor store is
monotonically non-decreasing, and every mention fetch carries the cursor in
force at that moment as its exclusive lower bound (`since_id`), i.e. requests
only mentions with id strictly greater than the current cursor. -/
theorem runTrace_cursor_monotone (steps : List StepWorld) (st : BotState)
    (hc : ∀ w ∈ steps, FetchContract w) :
    List.Sorted (· ≤ ·) (runTrace steps st).2.1 ∧
    (runTrace steps st).2.2 = cursorsBefore steps st :=
  ⟨((runTrace_writes_invariant steps st hc).1).imp (fun h => le_of_lt h),
    runTrace_requests steps st⟩

/-- Witness for C5 at a concrete input: two polling steps; the first returns a
mention with id 5 for an empty cursor, the second returns a mention with id 7
for cursor 5; both mentions are handled successfully. -/
theorem runTrace_cursor_monotone_witness :
    (∀ w ∈ ([⟨fun c => if c = none then some [⟨5, "a", "t"⟩] else none,
          fun _ => true⟩,
        ⟨fun c => if c = some 5 then some [⟨7, "b", "t"⟩] else none,
          fun _ => true⟩] : List StepWorld), FetchContract w) ∧
    (List.Sorted (· ≤ ·)
      (runTrace [⟨fun c => if c = none then some [⟨5, "a", "t"⟩] else none,
          fun _ => true⟩,
        ⟨fun c => if c = some 5 then some [⟨7, "b", "t"⟩] else none,
          fun _ => true⟩] ⟨none, none⟩).2.1 ∧
    (runTrace [⟨fun c => if c = none then some [⟨5, "a", "t"⟩] else none,
          fun _ => true⟩,
        ⟨fun c => if c = some 5 then some [⟨7, "b", "t"⟩] else none,
          fun _ => true⟩] ⟨none, none⟩).2.2 =
      cursorsBefore [⟨fun c => if c = none then some [⟨5, "a", "t"⟩] else none,
          fun _ => true⟩,
        ⟨fun c => if c = some 5 then some [⟨7, "b", "t"⟩] else none,
          fun _ => true⟩] ⟨none, none⟩) := by
  have hc : ∀ w ∈ ([⟨fun c => if c = none then some [⟨5, "a", "t"⟩] else none,
          fun _ => true⟩,
        ⟨fun c => if c = some 5 then some [⟨7, "b", "t"⟩] else none,
          fun _ => true⟩] : List StepWorld), FetchContract w := by
    intro w hw
    rcases List.mem_cons.1 hw with h | h
    · subst h
      intro c M hM
      dsimp only at hM
      rcases c with _ | x
      · rw [if_pos rfl] at hM
        injection hM with h2
        subst h2
        refine ⟨by decide, ?_⟩
        intro m hm x hx
        exact absurd hx (by simp)
      · rw [if_neg (by simp)] at hM
        exact absurd hM (by simp)
    · rcases List.mem_cons.1 h with h2 | h2
      · subst h2
        intro c M hM
        dsimp only at hM
        by_cases hcn : c = some 5
        · rw [if_pos hcn] at hM
          injection hM with h3
          subst h3
          refine ⟨by decide, ?_⟩
          intro m hm x hx
          rw [hcn] at hx
          injection hx with h4
          simp only [List.mem_singleton] at hm
          subst hm
          dsimp only
          omega
        · rw [if_neg hcn] at hM
          exact absurd hM (by simp)
      · exact absurd h2 (List.not_mem_nil w)
  exact ⟨hc, runTrace_cursor_monotone _ ⟨none, none⟩ hc⟩

/-- C7: `handleMention` wraps both the completion call and the platform
post-reply call in a single `try`, and its single `catch` returns
`OpenAIError` for either failure.  Hence a platform post failure (completion
succeeded, post threw) is reported as `OpenAIError`, not as the
platform-API kind — even though the code's own taxonomy has a distinct
`TwitterAPIError`, which `getMentions` uses for platform fetch failures.
This evaluates the code at that failing input. -/
theorem handleMention_conflates_post_errors :
    handleMention (some "reply") none = .error .openAIError ∧
    handleMention none (some ()) = .error .openAIError ∧
    AppErrorType.openAIError ≠ AppErrorType.twitterAPIError ∧
    getMentions (fun _ => none) none = .error .twitterAPIError :=
  ⟨rfl, rfl, by decide, rfl⟩

/- ## Authorization Exchange (`src/platforms/x/auth.ts`) -/

/-- The request-token pair held in `auth.ts`'s single-slot
`let requestTokens : OAuthTokens | null`. -/
structure OAuthTokens where
  oauth_token : String
  oauth_token_secret : String
deriving DecidableEq, Repr

/-- Which path `app.get('/callback')` took: `success` (tokens exchanged and
printed), `invalidCallback` (the `'Invalid callback parameters'` throw), or
`exchangeError` (`tempClient.login` threw). -/
inductive CallbackOutcome
  | success (accessToken accessSecret : String)
  | invalidCallback
  | exchangeError
deriving DecidableEq, Repr

/-- Observable effect of one `/callback` request: the outcome, whether the
token exchange was attempted at all, and the value of `requestTokens` after
the handler returns. -/
structure CallbackResult where
  outcome : CallbackOutcome
  exchangeAttempted : Bool
  session : Option OAuthTokens
deriving DecidableEq, Repr

/-- `app.get('/')`: generates fresh request tokens (`fresh`, the platform's
response to `generateAuthLink`) and stores them as the single active session,
overwriting any prior one. -/
def startAuthorization (fresh : OAuthTokens) (_prev : Option OAuthTokens) :
    Option OAuthTokens :=
  some fresh

/-- `app.get('/callback')`: throws `'Invalid callback parameters'` when
`oauth_token` or `oauth_verifier` is missing or empty (falsy) or no
`requestTokens` session is stored; otherwise exchanges the stored session's
tokens plus the verifier for access tokens (`exchange` models
`tempClient.login`, `none` = throw).  The handler never compares the
callback's `oauth_token` with the stored session's token, and never clears
`requestTokens`. -/
def handleCallback (exchange : OAuthTokens → String → Option (String × String))
    (qToken qVerifier : Option String) (requestTokens : Option OAuthTokens) :
    CallbackResult :=
  match qToken, qVerifier, requestTokens with
  | some t, some v, some s =>
    if t.isEmpty || v.isEmpty then ⟨.invalidCallback, false, some s⟩
    else
      match exchange s v with
      | some p => ⟨.success p.1 p.2, true, some s⟩
      | none => ⟨.exchangeError, true, some s⟩
  | _, _, _ => ⟨.invalidCallback, false, requestTokens⟩

/-- C2 counterexample: with active session token "A", a callback carrying the
non-matching token "B" together with a verifier does not fail with
`InvalidCallback`: the token exchange is attempted (with the stored session's
credentials) and succeeds. -/
theorem handleCallback_mismatch_not_rejected :
    (handleCallback (fun _ _ => some ("AT", "AS")) (some "B") (some "V")
      (some ⟨"A", "SEC"⟩)).outcome = .success "AT" "AS" ∧
    (handleCallback (fun _ _ => some ("AT", "AS")) (some "B") (some "V")
      (some ⟨"A", "SEC"⟩)).exchangeAttempted = true ∧
    ("B" : String) ≠ "A" :=
  ⟨rfl, rfl, by decide⟩

/-- C2 amended: with a session active and a non-empty `oauth_token` and
`oauth_verifier` present, `HandleCallback` never compares the callback token
with the session's token: it always proceeds to the token exchange using the
stored session's credentials, leaves the active session unchanged, and does
not fail with `InvalidCallback`; its outcome is decided solely by the
exchange. -/
theorem handleCallback_ignores_token_match
    (exchange : OAuthTokens → String → Option (String × String))
    (t v : String) (s : OAuthTokens)
    (ht : t.isEmpty = false) (hv : v.isEmpty = false) :
    (handleCallback exchange (some t) (some v) (some s)).exchangeAttempted = true ∧
    (handleCallback exchange (some t) (some v) (some s)).session = some s ∧
    (handleCallback exchange (some t) (some v) (some s)).outcome ≠
      .invalidCallback ∧
    (handleCallback exchange (some t) (some v) (some s)).outcome =
      (match exchange s v with
        | some p => .success p.1 p.2
        | none => .exchangeError) := by
  cases hex : exchange s v with
  | some p => simp [handleCallback, ht, hv, hex]
  | none => simp [handleCallback, ht, hv, hex]

/-- Witness for the amended C2 at a concrete input: session token "A",
callback token "B" ≠ "A", verifier "V", exchange stubbed to succeed. -/
theorem handleCallback_ignores_token_match_witness :
    ("B" : String).isEmpty = false ∧ ("V" : String).isEmpty = false ∧
    ((handleCallback (fun _ _ => some ("AT", "AS")) (some "B") (some "V")
        (some ⟨"A", "SEC"⟩)).exchangeAttempted = true ∧
      (handleCallback (fun _ _ => some ("AT", "AS")) (some "B") (some "V")
        (some ⟨"A", "SEC"⟩)).session = some ⟨"A", "SEC"⟩ ∧
      (handleCallback (fun _ _ => some ("AT", "AS")) (some "B") (some "V")
        (some ⟨"A", "SEC"⟩)).outcome ≠ .invalidCallback ∧
      (handleCallback (fun _ _ => some ("AT", "AS")) (some "B") (some "V")
        (some ⟨"A", "SEC"⟩)).outcome =
        (match (fun (_ : OAuthTokens) (_ : String) => some ("AT", "AS"))
            (⟨"A", "SEC"⟩ : OAuthTokens) "V" with
          | some p => .success p.1 p.2
          | none => .exchangeError)) :=
  ⟨by decide, by decide,
    handleCallback_ignores_token_match (fun _ _ => some ("AT", "AS")) "B" "V"
      ⟨"A", "SEC"⟩ (by decide) (by decide)⟩

/-- C3 counterexample: `StartAuthorization` followed by one successful
`HandleCallback` (exchange stubbed to succeed) does not discard the active
session: the session is still present and identical, and a second
`HandleCallback` with the same token and verifier succeeds again instead of
failing with `InvalidCallback`. -/
theorem handleCallback_not_single_use :
    (handleCallback (fun _ _ => some ("AT", "AS")) (some "A") (some "V")
      (startAuthorization ⟨"A", "SEC"⟩ none)).session = some ⟨"A", "SEC"⟩ ∧
    (handleCallback (fun _ _ => some ("AT", "AS")) (some "A") (some "V")
      ((handleCallback (fun _ _ => some ("AT", "AS")) (some "A") (some "V")
        (startAuthorization ⟨"A", "SEC"⟩ none)).session)).outcome =
      .success "AT" "AS" :=
  ⟨rfl, rfl⟩

/-- C3 amended: a successful `HandleCallback` does not consume the session:
after `StartAuthorization` and a successful callback the active session is
unchanged, and a second `HandleCallback` with the same token and verifier
returns the very same successful result. -/
theorem handleCallback_success_keeps_session
    (exchange : OAuthTokens → String → Option (String × String))
    (t v a b : String) (s : OAuthTokens)
    (ht : t.isEmpty = false) (hv : v.isEmpty = false)
    (hex : exchange s v = some (a, b)) :
    (handleCallback exchange (some t) (some v)
      (startAuthorization s none)).outcome = .success a b ∧
    (handleCallback exchange (some t) (some v)
      (startAuthorization s none)).session = some s ∧
    handleCallback exchange (some t) (some v)
        ((handleCallback exchange (some t) (some v)
          (startAuthorization s none)).session) =
      handleCallback exchange (some t) (some v) (startAuthorization s none) := by
  simp [handleCallback, startAuthorization, ht, hv, hex]

/-- Witness for the amended C3 at a concrete input. -/
theorem handleCallback_success_keeps_session_witness :
    ("A" : String).isEmpty = false ∧ ("V" : String).isEmpty = false ∧
    (fun (_ : OAuthTokens) (_ : String) => some ("AT", "AS"))
      (⟨"A", "SEC"⟩ : OAuthTokens) "V" = some ("AT", "AS") ∧
    ((handleCallback (fun _ _ => some ("AT", "AS")) (some "A") (some "V")
        (startAuthorization ⟨"A", "SEC"⟩ none)).outcome = .success "AT" "AS" ∧
      (handleCallback (fun _ _ => some ("AT", "AS")) (some "A") (some "V")
        (startAuthorization ⟨"A", "SEC"⟩ none)).session = some ⟨"A", "SEC"⟩ ∧
      handleCallback (fun _ _ => some ("AT", "AS")) (some "A") (some "V")
          ((handleCallback (fun _ _ => some ("AT", "AS")) (some "A") (some "V")
            (startAuthorization ⟨"A", "SEC"⟩ none)).session) =
        handleCallback (fun _ _ => some ("AT", "AS")) (some "A") (some "V")
          (startAuthorization ⟨"A", "SEC"⟩ none)) :=
  ⟨by decide, by decide, rfl,
    handleCallback_success_keeps_session (fun _ _ => some ("AT", "AS"))
      "A" "V" "AT" "AS" ⟨"A", "SEC"⟩ (by decide) (by decide) rfl⟩

/- ## Secondary task: GitHub commit announcements -/

/-- A commit record inside a push event's `payload.commits`. -/
structure GHCommit where
  message : String
  sha : String
deriving DecidableEq, Repr

/-- One event of the public activity feed; `eventType` embeds the source's
`event.type` discriminator and `repoName` its `event.repo.name`. -/
structure GHEvent where
  eventType : String
  repoName : String
  commits : List GHCommit
deriving DecidableEq, Repr

/-- One element of `fetchGitHubCommits`' result (`{ message, url }`). -/
structure CommitPost where
  message : String
  url : String
deriving DecidableEq, Repr

/-- `fetchGitHubCommits`: filter the feed to `PushEvent`s and flatten to one
record per commit, with the display URL
`https://github.com/${GITHUB_USERNAME}/${event.repo.name}/commit/${commit.sha}`.
The feed response is the argument `events` (a failed fetch returns `[]` in the
source and produces no posts; the claims concern a successful fetch). -/
def fetchGitHubCommits (events : List GHEvent) : List CommitPost :=
  (events.filter (fun e => e.eventType == "PushEvent")).flatMap
    (fun e => e.commits.map (fun c =>
      ⟨c.message,
        "https://github.com/" ++ GITHUB_USERNAME ++ "/" ++ e.repoName ++
          "/commit/" ++ c.sha⟩))

/-- The announcement text posted by `tweetGitHubCommits` for one commit. -/
def commitTweetText (c : CommitPost) : String :=
  "New commit by @" ++ GITHUB_USERNAME ++ ": \"" ++ c.message ++ "\"\n" ++ c.url

/-- `tweetGitHubCommits`: posts one announcement per fetched commit; each post
sits in its own `try`/`catch`, so a failed post (`postOk` returns `false`) is
only logged and the loop continues with the remaining commits.  Returns every
attempted post together with its outcome. -/
def tweetGitHubCommits (postOk : String → Bool) (events : List GHEvent) :
    List (String × Bool) :=
  (fetchGitHubCommits events).map
    (fun c => (commitTweetText c, postOk (commitTweetText c)))

/-- C8: for a feed whose push-type events are exactly one event carrying two
commits, the secondary task produces exactly two announcement posts, one per
commit, each carrying a URL of the form
`https://<host>/<user>/<repo>/commit/<sha>`; and the set of attempted posts
does not depend on individual posts failing. -/
theorem tweetGitHubCommits_two_commits (events : List GHEvent) (e : GHEvent)
    (c1 c2 : GHCommit)
    (hpush : events.filter (fun ev => ev.eventType == "PushEvent") = [e])
    (hcommits : e.commits = [c1, c2]) :
    fetchGitHubCommits events =
      [⟨c1.message, "https://github.com/" ++ GITHUB_USERNAME ++ "/" ++
          e.repoName ++ "/commit/" ++ c1.sha⟩,
        ⟨c2.message, "https://github.com/" ++ GITHUB_USERNAME ++ "/" ++
          e.repoName ++ "/commit/" ++ c2.sha⟩] ∧
    (∀ postOk, (tweetGitHubCommits postOk events).length = 2) ∧
    (∀ postOk1 postOk2, (tweetGitHubCommits postOk1 events).map Prod.fst =
      (tweetGitHubCommits postOk2 events).map Prod.fst) ∧
    (∀ repo sha : String, ∃ host user : String,
      "https://github.com/" ++ GITHUB_USERNAME ++ "/" ++ repo ++
          "/commit/" ++ sha =
        "https://" ++ host ++ "/" ++ user ++ "/" ++ repo ++
          "/commit/" ++ sha) := by
  have hf : fetchGitHubCommits events =
      [⟨c1.message, "https://github.com/" ++ GITHUB_USERNAME ++ "/" ++
          e.repoName ++ "/commit/" ++ c1.sha⟩,
        ⟨c2.message, "https://github.com/" ++ GITHUB_USERNAME ++ "/" ++
          e.repoName ++ "/commit/" ++ c2.sha⟩] := by
    unfold fetchGitHubCommits
    rw [hpush]
    simp [hcommits]
  refine ⟨hf, ?_, ?_, ?_⟩
  · intro postOk
    simp [tweetGitHubCommits, hf]
  · intro postOk1 postOk2
    simp [tweetGitHubCommits, hf]
  · intro repo sha
    exact ⟨"github.com", GITHUB_USERNAME, rfl⟩

/-- Witness for C8 at a concrete input: a feed with one push event carrying
two commits and one non-push event. -/
theorem tweetGitHubCommits_two_commits_witness :
    ([⟨"PushEvent", "repo1", [⟨"m1", "s1"⟩, ⟨"m2", "s2"⟩]⟩,
        ⟨"WatchEvent", "r2", []⟩] : List GHEvent).filter
      (fun ev => ev.eventType == "PushEvent") =
        [⟨"PushEvent", "repo1", [⟨"m1", "s1"⟩, ⟨"m2", "s2"⟩]⟩] ∧
    (⟨"PushEvent", "repo1", [⟨"m1", "s1"⟩, ⟨"m2", "s2"⟩]⟩ : GHEvent).commits =
      [⟨"m1", "s1"⟩, ⟨"m2", "s2"⟩] ∧
    (fetchGitHubCommits [⟨"PushEvent", "repo1", [⟨"m1", "s1"⟩, ⟨"m2", "s2"⟩]⟩,
        ⟨"WatchEvent", "r2", []⟩] =
      [⟨"m1", "https://github.com/" ++ GITHUB_USERNAME ++ "/" ++ "repo1" ++
          "/commit/" ++ "s1"⟩,
        ⟨"m2", "https://github.com/" ++ GITHUB_USERNAME ++ "/" ++ "repo1" ++
          "/commit/" ++ "s2"⟩] ∧
    (∀ postOk, (tweetGitHubCommits postOk
      [⟨"PushEvent", "repo1", [⟨"m1", "s1"⟩, ⟨"m2", "s2"⟩]⟩,
        ⟨"WatchEvent", "r2", []⟩]).length = 2) ∧
    (∀ postOk1 postOk2, (tweetGitHubCommits postOk1
      [⟨"PushEvent", "repo1", [⟨"m1", "s1"⟩, ⟨"m2", "s2"⟩]⟩,
        ⟨"WatchEvent", "r2", []⟩]).map Prod.fst =
      (tweetGitHubCommits postOk2
        [⟨"PushEvent", "repo1", [⟨"m1", "s1"⟩, ⟨"m2", "s2"⟩]⟩,
          ⟨"WatchEvent", "r2", []⟩]).map Prod.fst) ∧
    (∀ repo sha : String, ∃ host user : String,
      "https://github.com/" ++ GITHUB_USERNAME ++ "/" ++ repo ++
          "/commit/" ++ sha =
        "https://" ++ host ++ "/" ++ user ++ "/" ++ repo ++
          "/commit/" ++ sha)) :=
  ⟨by decide, rfl,
    tweetGitHubCommits_two_commits
      [⟨"PushEvent", "repo1", [⟨"m1", "s1"⟩, ⟨"m2", "s2"⟩]⟩,
        ⟨"WatchEvent", "r2", []⟩]
      ⟨"PushEvent", "repo1", [⟨"m1", "s1"⟩, ⟨"m2", "s2"⟩]⟩
      ⟨"m1", "s1"⟩ ⟨"m2", "s2"⟩ (by decide) rfl⟩

/- ## Text cleaning (`cleanTweetText`) and cursor file persistence -/

/-- JavaScript's `\w` character class (ASCII letters, digits, underscore). -/
def isWordChar (c : Char) : Bool :=
  c.isAlphanum || c == '_'

/-- The whitespace class stripped by `String.prototype.trim` (the ASCII part;
the exotic Unicode spaces it also strips do not occur in the claims). -/
def isJsSpace (c : Char) : Bool :=
  c == ' ' || c == '\t' || c == '\n' || c == '\r' || c == '\x0b' || c == '\x0c'

/-- `String.prototype.trim`: drop leading and trailing whitespace. -/
def jsTrim (l : List Char) : List Char :=
  ((l.dropWhile isJsSpace).reverse.dropWhile isJsSpace).reverse

/-- `text.replace(/^(@\w+ ?)+/, '')`: greedily consume the maximal leading run
of repetitions of `@`, one or more word characters, and one optional space.
The fuel argument (instantiated with the text length, an upper bound on the
number of repetitions since each consumes at least one character) keeps the
recursion structural. -/
def stripMentionsFuel : Nat → List Char → List Char
  | 0, l => l
  | n + 1, l =>
    match l with
    | [] => []
    | c :: cs =>
      if c = '@' then
        if (cs.takeWhile isWordChar).isEmpty then c :: cs
        else
          match cs.dropWhile isWordChar with
          | ' ' :: rest => stripMentionsFuel n rest
          | rest => stripMentionsFuel n rest
      else c :: cs

/-- `cleanTweetText`: strip the leading mention run, then trim. -/
def cleanTweetText (s : String) : String :=
  String.mk (jsTrim (stripMentionsFuel s.data.length s.data))

/-- Whether the text starts with a mention token `@\w+` (the regex can match
at all). -/
def hasLeadingMention (l : List Char) : Bool :=
  match l with
  | '@' :: cs => !(cs.takeWhile isWordChar).isEmpty
  | _ => false

/-- Whether the text has neither leading nor trailing whitespace (so `trim`
leaves it unchanged). -/
def noEdgeWhitespace (l : List Char) : Bool :=
  (match l with
    | [] => true
    | c :: _ => !isJsSpace c) &&
  (match l.reverse with
    | [] => true
    | c :: _ => !isJsSpace c)

theorem stripMentionsFuel_no_leading {l : List Char}
    (h : hasLeadingMention l = false) : ∀ n, stripMentionsFuel n l = l := by
  intro n
  cases n with
  | zero => rfl
  | succ n =>
    cases l with
    | nil => rfl
    | cons c cs =>
      by_cases hc : c = '@'
      · subst hc
        have hw : (cs.takeWhile isWordChar).isEmpty = true := by
          simpa [hasLeadingMention] using h
        simp [stripMentionsFuel, hw]
      · simp [stripMentionsFuel, hc]

theorem jsTrim_noEdge {l : List Char} (h : noEdgeWhitespace l = true) :
    jsTrim l = l := by
  have h12 := h
  unfold noEdgeWhitespace at h12
  rw [Bool.and_eq_true] at h12
  obtain ⟨h1, h2⟩ := h12
  have hfront : l.dropWhile isJsSpace = l := by
    cases l with
    | nil => rfl
    | cons c cs =>
      have : isJsSpace c = false := by simpa using h1
      simp [List.dropWhile_cons, this]
  have hback : l.reverse.dropWhile isJsSpace = l.reverse := by
    cases hr : l.reverse with
    | nil => rfl
    | cons c cs =>
      rw [hr] at h2
      have : isJsSpace c = false := by simpa using h2
      simp [List.dropWhile_cons, this]
  unfold jsTrim
  rw [hfront, hback, List.reverse_reverse]

/-- C9 counterexample: `"hello "` has no leading mention tokens, yet
`cleanTweetText` does not return it unchanged: the trailing space is
trimmed. -/
theorem cleanTweetText_changes_mention_free_input :
    hasLeadingMention ("hello " : String).data = false ∧
    cleanTweetText "hello " ≠ "hello " ∧
    cleanTweetText "hello " = "hello" :=
  ⟨by decide, by decide, by decide⟩

/-- C9 amended: `cleanTweetText` strips the leading run of `@handle` mention
tokens and additionally trims surrounding whitespace:
`cleanTweetText "@bot @alice hello there" = "hello there"`, and every input
with no leading mention tokens and no leading or trailing whitespace (such as
`"no mentions here"`) is returned unchanged. -/
theorem cleanTweetText_spec :
    cleanTweetText "@bot @alice hello there" = "hello there" ∧
    cleanTweetText "no mentions here" = "no mentions here" ∧
    ∀ s : String, hasLeadingMention s.data = false →
      noEdgeWhitespace s.data = true → cleanTweetText s = s := by
  refine ⟨by decide, by decide, ?_⟩
  intro s h1 h2
  unfold cleanTweetText
  rw [stripMentionsFuel_no_leading h1 s.data.length, jsTrim_noEdge h2]

/-- Witness for the amended C9 at the claim's own mention-free input. -/
theorem cleanTweetText_spec_witness :
    hasLeadingMention ("no mentions here" : String).data = false ∧
    noEdgeWhitespace ("no mentions here" : String).data = true ∧
    cleanTweetText "no mentions here" = "no mentions here" :=
  ⟨by decide, by decide,
    cleanTweetText_spec.2.2 "no mentions here" (by decide) (by decide)⟩

/-- `saveLastMentionId(id)`: overwrite `last_mention_id.txt` with the id; the
result is the file's new content (the previous content `_file` is
discarded). -/
def saveLastMentionId (mentionId : String) (_file : Option String) :
    Option String :=
  some mentionId

/-- The startup load in `main`: read `last_mention_id.txt` and trim its
content; a read failure (absent file) leaves the cursor undefined. -/
def loadLastMentionId (file : Option String) : Option String :=
  match file with
  | some content => some (String.mk (jsTrim content.data))
  | none => none

/-- C10: cursor persistence round-trips: writing any mention id with no
leading or trailing whitespace and then performing the startup load (read +
trim) yields exactly the same id. -/
theorem lastMentionId_roundtrip (mentionId : String) (file : Option String)
    (h : noEdgeWhitespace mentionId.data = true) :
    loadLastMentionId (saveLastMentionId mentionId file) = some mentionId := by
  simp only [saveLastMentionId, loadLastMentionId]
  rw [jsTrim_noEdge h]

/-- Witness for C10 at a concrete id. -/
theorem lastMentionId_roundtrip_witness :
    noEdgeWhitespace ("1864297489920045098" : String).data = true ∧
    loadLastMentionId (saveLastMentionId "1864297489920045098" none) =
      some "1864297489920045098" :=
  ⟨by decide, lastMentionId_roundtrip "1864297489920045098" none (by decide)⟩

end VanGogh
